import Mathlib

/-!
Verification development for the kilo terminal editor (final tutorial
snapshot, `kilo.c`).  The C program is shallowly embedded: rows are lists of
bytes (`Nat`), the global `struct editorConfig E` becomes the structure
`EditorConfig`, and each C function on the core state becomes a pure Lean
function of the same name.  C `int` fields that are always non-negative
indexes (cursor, offsets, sizes) are modelled as `Nat`; the one place the C
code clamps a possibly negative index (`editorRowInsertChar`) keeps an `Int`
argument so the clamp is modelled exactly.
-/

/-- KILO_TAB_STOP from the defines section. -/
def KILO_TAB_STOP : Nat := 4

/-- CTRL_KEY(k) masks the upper three bits, as in the C macro. -/
def CTRL_KEY (k : Nat) : Nat := k &&& 0x1f

/- The editorKey enum: named keys start at 1000. -/

def ARROW_LEFT : Nat := 1000
def ARROW_RIGHT : Nat := 1001
def ARROW_UP : Nat := 1002
def ARROW_DOWN : Nat := 1003
def DEL_KEY : Nat := 1004
def HOME_KEY : Nat := 1005
def END_KEY : Nat := 1006
def PAGE_UP : Nat := 1007
def PAGE_DOWN : Nat := 1008

/-- One row of text (C struct erow).  `chars` is the raw byte content and
`render` the derived display form; the C fields `size` and `rsize` are the
lengths of the two lists and are kept implicit. -/
structure Erow where
  chars : List Nat
  render : List Nat
deriving DecidableEq, Repr

/-- The inner loop of editorUpdateRow for one source byte at render column
`idx`: a tab (byte 9) emits one space and then spaces until `idx` is a
multiple of KILO_TAB_STOP, i.e. `KILO_TAB_STOP - idx % KILO_TAB_STOP`
spaces in total (byte 32); any other byte is copied. -/
def renderLoop : List Nat → Nat → List Nat
  | [], _ => []
  | ch :: rest, idx =>
    if ch = 9 then
      List.replicate (KILO_TAB_STOP - idx % KILO_TAB_STOP) 32 ++
        renderLoop rest (idx + (KILO_TAB_STOP - idx % KILO_TAB_STOP))
    else
      ch :: renderLoop rest (idx + 1)

/-- editorUpdateRow: recompute `render` from `chars` (the C code also writes
a terminating NUL and `rsize`, which the list representation carries
implicitly). -/
def editorUpdateRow (row : Erow) : Erow :=
  { row with render := renderLoop row.chars 0 }

/-- The loop of editorRowCxToRx: walk the first `cx` bytes keeping the
running render column `rx`; a tab adds `(KILO_TAB_STOP - 1) - rx %
KILO_TAB_STOP` and then every byte adds 1.  For `cx` beyond the row length
the C code would read past the buffer; the model stops at the end of the
row (the claims only use `cx ≤ size`). -/
def cxToRxLoop : List Nat → Nat → Nat → Nat
  | _, 0, rx => rx
  | [], _ + 1, rx => rx
  | ch :: rest, j + 1, rx =>
    if ch = 9 then
      cxToRxLoop rest j (rx + (KILO_TAB_STOP - 1 - rx % KILO_TAB_STOP) + 1)
    else
      cxToRxLoop rest j (rx + 1)

/-- editorRowCxToRx. -/
def editorRowCxToRx (row : Erow) (cx : Nat) : Nat :=
  cxToRxLoop row.chars cx 0

/-- editorRowInsertChar on a single row: `if (at < 0 || at > row->size) at =
row->size`, shift the tail right by one, store the byte, recompute the
render.  The insertion index keeps the C `int` type so the negative branch
of the clamp is modelled exactly. -/
def editorRowInsertChar (row : Erow) (atIdx : Int) (c : Nat) : Erow :=
  let n := row.chars.length
  let k := (if atIdx < 0 ∨ (n : Int) < atIdx then (n : Int) else atIdx).toNat
  editorUpdateRow { row with chars := row.chars.take k ++ c :: row.chars.drop k }

/-- The global editor state (struct editorConfig).  `numrows` is
`row.length`; the fields tied to the terminal and the status bar
(`filename`, `statusmsg`, `orig_termios`) play no part in the claims and
are omitted. -/
structure EditorConfig where
  cx : Nat
  cy : Nat
  rx : Nat
  rowoff : Nat
  coloff : Nat
  screenrows : Nat
  screencols : Nat
  row : List Erow
deriving DecidableEq, Repr

/-- The C expression `row = (cy >= numrows) ? NULL : &row[cy]; rowlen = row ?
row->size : 0`. -/
def rowLen (rows : List Erow) (i : Nat) : Nat :=
  match rows.get? i with
  | some r => r.chars.length
  | none => 0

/-- The row at index `i` (valid whenever `i < rows.length`, which is how the
C code indexes `E.row`). -/
def rowAt (rows : List Erow) (i : Nat) : Erow :=
  (rows.get? i).getD ⟨[], []⟩

/-- The documented cursor invariant: `0 ≤ cy ≤ numrows`, and `0 ≤ cx ≤
row[cy].size` when `cy < numrows`, else `cx = 0` (the lower bounds are
inherent in `Nat`). -/
def cursorInv (e : EditorConfig) : Prop :=
  e.cy ≤ e.row.length ∧
    (if e.cy < e.row.length then e.cx ≤ rowLen e.row e.cy else e.cx = 0)

instance cursorInvDecidable (e : EditorConfig) : Decidable (cursorInv e) := by
  unfold cursorInv
  exact inferInstance

/-- editorAppendRow: append a fresh row built from the bytes `s` and update
its render (the C code sets `chars`, then `rsize = 0`, `render = NULL`, then
calls editorUpdateRow). -/
def editorAppendRow (e : EditorConfig) (s : List Nat) : EditorConfig :=
  { e with row := e.row ++ [editorUpdateRow { chars := s, render := [] }] }

/-- editorInsertChar: if the cursor sits one past the last row, append an
empty row first; then insert at `(cy, cx)` and advance the cursor column. -/
def editorInsertChar (e : EditorConfig) (c : Nat) : EditorConfig :=
  let e1 := if e.cy = e.row.length then editorAppendRow e [] else e
  { e1 with
    row := e1.row.set e1.cy (editorRowInsertChar (rowAt e1.row e1.cy) (e1.cx : Int) c),
    cx := e1.cx + 1 }

/-- editorScroll: recompute `rx`, then pull the window offsets so the cursor
is inside the window. -/
def editorScroll (e : EditorConfig) : EditorConfig :=
  let rx := if e.cy < e.row.length then editorRowCxToRx (rowAt e.row e.cy) e.cx else 0
  let rowoff1 := if e.cy < e.rowoff then e.cy else e.rowoff
  let rowoff2 := if e.cy ≥ rowoff1 + e.screenrows then e.cy - e.screenrows + 1 else rowoff1
  let coloff1 := if rx < e.coloff then rx else e.coloff
  let coloff2 := if rx ≥ coloff1 + e.screencols then rx - e.screencols + 1 else coloff1
  { e with rx := rx, rowoff := rowoff2, coloff := coloff2 }

/-- editorMoveCursor: the switch over the four arrow keys followed by the
snap of the cursor column to the end of the (possibly new) line. -/
def editorMoveCursor (e : EditorConfig) (key : Nat) : EditorConfig :=
  let moved : Nat × Nat :=
    if key = ARROW_LEFT then
      if e.cx ≠ 0 then (e.cx - 1, e.cy)
      else if e.cy > 0 then ((rowAt e.row (e.cy - 1)).chars.length, e.cy - 1)
      else (e.cx, e.cy)
    else if key = ARROW_RIGHT then
      match e.row.get? e.cy with
      | some r =>
        if e.cx < r.chars.length then (e.cx + 1, e.cy)
        else if e.cx = r.chars.length then (0, e.cy + 1)
        else (e.cx, e.cy)
      | none => (e.cx, e.cy)
    else if key = ARROW_UP then
      (e.cx, if e.cy ≠ 0 then e.cy - 1 else e.cy)
    else if key = ARROW_DOWN then
      (e.cx, if e.cy < e.row.length then e.cy + 1 else e.cy)
    else (e.cx, e.cy)
  let rowlen := rowLen e.row moved.2
  { e with cx := if moved.1 > rowlen then rowlen else moved.1, cy := moved.2 }

/-- The `while (times--) editorMoveCursor(...)` loop of the PAGE_UP /
PAGE_DOWN branch. -/
def moveCursorTimes (e : EditorConfig) (key : Nat) : Nat → EditorConfig
  | 0 => e
  | n + 1 => moveCursorTimes (editorMoveCursor e key) key n

/-- editorProcessKeypress on an already decoded key: `none` models the
Ctrl-Q exit path, every other branch yields the next state. -/
def editorProcessKeypress (e : EditorConfig) (c : Nat) : Option EditorConfig :=
  if c = CTRL_KEY 113 then
    none
  else if c = HOME_KEY then
    some { e with cx := 0 }
  else if c = END_KEY then
    some (if e.cy < e.row.length then { e with cx := (rowAt e.row e.cy).chars.length } else e)
  else if c = PAGE_UP ∨ c = PAGE_DOWN then
    let e1 :=
      if c = PAGE_UP then { e with cy := e.rowoff }
      else
        let cy1 := e.rowoff + e.screenrows - 1
        { e with cy := if cy1 > e.row.length then e.row.length else cy1 }
    some (moveCursorTimes e1 (if c = PAGE_UP then ARROW_UP else ARROW_DOWN) e1.screenrows)
  else if c = ARROW_UP ∨ c = ARROW_DOWN ∨ c = ARROW_LEFT ∨ c = ARROW_RIGHT then
    some (editorMoveCursor e c)
  else
    some (editorInsertChar e c)

/-- initEditor, given the window size reported by getWindowSize; the C code
then reserves two rows for the status and message bars. -/
def initEditor (windowRows windowCols : Nat) : EditorConfig :=
  { cx := 0, cy := 0, rx := 0, rowoff := 0, coloff := 0,
    screenrows := windowRows - 2, screencols := windowCols, row := [] }

/-- The line-terminator strip of editorOpen: drop trailing newline (10) and
carriage-return (13) bytes. -/
def stripLineEnd (l : List Nat) : List Nat :=
  ((l.reverse.dropWhile fun b => b = 10 || b = 13)).reverse

/-- editorOpen, with the file contents already split into lines: strip each
line terminator and append the line as a row. -/
def editorOpen (e : EditorConfig) (lines : List (List Nat)) : EditorConfig :=
  lines.foldl (fun acc l => editorAppendRow acc (stripLineEnd l)) e

/- ### Key decoder -/

/-- One result of the one-byte `read` call in raw mode: either a byte
arrived or the VTIME poll expired with no data. -/
inductive ReadEvent where
  | byte (b : Nat)
  | timeout
deriving DecidableEq, Repr

/-- The opening loop of editorReadKey: keep reading until a byte arrives
(timeouts are retried).  `none` models an input that never delivers a
byte, on which the C loop never returns. -/
def readFirstByte : List ReadEvent → Option (Nat × List ReadEvent)
  | [] => none
  | ReadEvent.timeout :: rest => readFirstByte rest
  | ReadEvent.byte b :: rest => some (b, rest)

/-- A single follow-up `read` inside an escape sequence: it consumes the
next moment of input and reports the byte, or nothing on a timeout. -/
def readOnce : List ReadEvent → Option Nat × List ReadEvent
  | [] => (none, [])
  | ReadEvent.timeout :: rest => (none, rest)
  | ReadEvent.byte b :: rest => (some b, rest)

/-- The `switch (seq[1])` for `ESC [ digit ~` sequences: 49 is the byte for
digit 1, and so on. -/
def escDigitKey (d : Nat) : Option Nat :=
  if d = 49 then some HOME_KEY
  else if d = 51 then some DEL_KEY
  else if d = 52 then some END_KEY
  else if d = 53 then some PAGE_UP
  else if d = 54 then some PAGE_DOWN
  else if d = 55 then some HOME_KEY
  else if d = 56 then some END_KEY
  else none

/-- The `switch (seq[1])` for `ESC [ letter` sequences: 65 is the byte for
A, 72 for H, 70 for F. -/
def escLetterKey (l : Nat) : Option Nat :=
  if l = 65 then some ARROW_UP
  else if l = 66 then some ARROW_DOWN
  else if l = 67 then some ARROW_RIGHT
  else if l = 68 then some ARROW_LEFT
  else if l = 72 then some HOME_KEY
  else if l = 70 then some END_KEY
  else none

/-- The `switch (seq[1])` for `ESC O letter` sequences. -/
def escOKey (l : Nat) : Option Nat :=
  if l = 72 then some HOME_KEY
  else if l = 70 then some END_KEY
  else none

/-- editorReadKey: returns the decoded key code together with the input not
yet consumed.  27 is the escape byte, 91 the byte for the opening bracket,
79 for O, 126 for the tilde; 48 and 57 bound the digit bytes. -/
def editorReadKey (input : List ReadEvent) : Option (Nat × List ReadEvent) :=
  match readFirstByte input with
  | none => none
  | some (c, rest) =>
    if c = 27 then
      match readOnce rest with
      | (none, r1) => some (27, r1)
      | (some s0, r1) =>
        match readOnce r1 with
        | (none, r2) => some (27, r2)
        | (some s1, r2) =>
          if s0 = 91 then
            if 48 ≤ s1 ∧ s1 ≤ 57 then
              match readOnce r2 with
              | (none, r3) => some (27, r3)
              | (some s2, r3) =>
                if s2 = 126 then
                  match escDigitKey s1 with
                  | some k => some (k, r3)
                  | none => some (27, r3)
                else some (27, r3)
            else
              match escLetterKey s1 with
              | some k => some (k, r2)
              | none => some (27, r2)
          else if s0 = 79 then
            match escOKey s1 with
            | some k => some (k, r2)
            | none => some (27, r2)
          else some (27, r2)
    else some (c, rest)

/- ### Spec-side definitions used to state the claims -/

/-- The spec formula for the extra render width contributed by tabs:
summing, over each tab byte, `tab_stop - 1 - (running_col mod tab_stop)`,
where `running_col` is the render column at which the tab begins (every
byte advances the column by one, a tab to the next tab-stop boundary). -/
def tabExtra : List Nat → Nat → Nat
  | [], _ => 0
  | ch :: rest, col =>
    if ch = 9 then
      (KILO_TAB_STOP - 1 - col % KILO_TAB_STOP) +
        tabExtra rest (col + (KILO_TAB_STOP - col % KILO_TAB_STOP))
    else
      tabExtra rest (col + 1)

/-- The recognized escape forms, from the spec table, applied to the input
after the initial escape byte: `[ digit ~` (digit 1/7 to HOME, 3 to
DELETE, 4/8 to END, 5 to PAGE_UP, 6 to PAGE_DOWN), `[ letter` (A/B/C/D to
the arrows, H to HOME, F to END), and `O letter` (H to HOME, F to END);
`none` means the input does not begin with a recognized form. -/
def specRecognizedEsc (rest : List ReadEvent) : Option (Nat × List ReadEvent) :=
  match rest with
  | ReadEvent.byte s0 :: ReadEvent.byte s1 :: more =>
    if s0 = 91 then
      if 48 ≤ s1 ∧ s1 ≤ 57 then
        match more with
        | ReadEvent.byte s2 :: more2 =>
          if s2 = 126 then (escDigitKey s1).map fun k => (k, more2) else none
        | _ => none
      else (escLetterKey s1).map fun k => (k, more)
    else if s0 = 79 then
      (escOKey s1).map fun k => (k, more)
    else none
  | _ => none

/- ### Concrete states used by witnesses and counterexamples -/

/-- The row holding the bytes of "abc". -/
def abcRow : Erow := editorUpdateRow { chars := [97, 98, 99], render := [] }

/-- The row holding a tab byte followed by the byte of "x". -/
def tabRow : Erow := editorUpdateRow { chars := [9, 120], render := [] }

/-- A small well-formed editor state over two rows. -/
def sampleState : EditorConfig :=
  { cx := 0, cy := 0, rx := 0, rowoff := 0, coloff := 0,
    screenrows := 5, screencols := 8, row := [abcRow, tabRow] }

/-- A state that satisfies the documented cursor invariant but whose row
offset exceeds the cursor row, as never happens after editorScroll. -/
def pageUpCexState : EditorConfig :=
  { cx := 0, cy := 0, rx := 0, rowoff := 5, coloff := 0,
    screenrows := 1, screencols := 10, row := [] }

/-- The state editorProcessKeypress produces from `pageUpCexState` on
PAGE_UP: the cursor lands on row 4 of an empty document. -/
def pageUpCexResult : EditorConfig :=
  { cx := 0, cy := 4, rx := 0, rowoff := 5, coloff := 0,
    screenrows := 1, screencols := 10, row := [] }

/-- The state editorProcessKeypress produces from `sampleState` on
ARROW_RIGHT. -/
def sampleStateRight : EditorConfig :=
  { cx := 1, cy := 0, rx := 0, rowoff := 0, coloff := 0,
    screenrows := 5, screencols := 8, row := [abcRow, tabRow] }

/- ### Theorems -/

/-- Claim C1: after every editorScroll call, when the screen has at least
one row and one column and the document is non-empty, the window offsets
satisfy `row_offset ≤ cy < row_offset + screen_rows` and
`col_offset ≤ rx < col_offset + screen_cols`. -/
theorem editorScroll_keeps_cursor_visible (e : EditorConfig)
    (hr : 1 ≤ e.screenrows) (hc : 1 ≤ e.screencols) (_hne : e.row ≠ []) :
    (editorScroll e).rowoff ≤ (editorScroll e).cy ∧
    (editorScroll e).cy < (editorScroll e).rowoff + (editorScroll e).screenrows ∧
    (editorScroll e).coloff ≤ (editorScroll e).rx ∧
    (editorScroll e).rx < (editorScroll e).coloff + (editorScroll e).screencols := by
  simp only [editorScroll]
  split_ifs <;> omega

theorem editorScroll_keeps_cursor_visible_witness :
    1 ≤ sampleState.screenrows ∧ 1 ≤ sampleState.screencols ∧ sampleState.row ≠ [] ∧
    ((editorScroll sampleState).rowoff ≤ (editorScroll sampleState).cy ∧
     (editorScroll sampleState).cy <
       (editorScroll sampleState).rowoff + (editorScroll sampleState).screenrows ∧
     (editorScroll sampleState).coloff ≤ (editorScroll sampleState).rx ∧
     (editorScroll sampleState).rx <
       (editorScroll sampleState).coloff + (editorScroll sampleState).screencols) :=
  ⟨by decide, by decide, by decide,
   editorScroll_keeps_cursor_visible sampleState (by decide) (by decide) (by decide)⟩

/-- Each render column is below the tab stop after taking the remainder. -/
theorem mod_tabstop_lt (idx : Nat) : idx % KILO_TAB_STOP < KILO_TAB_STOP := by
  simp [KILO_TAB_STOP]
  omega

/-- Length of the render loop output: every byte contributes one column and
every tab `KILO_TAB_STOP - 1 - idx % KILO_TAB_STOP` further columns. -/
theorem renderLoop_length (chars : List Nat) :
    ∀ idx, (renderLoop chars idx).length = chars.length + tabExtra chars idx := by
  induction chars with
  | nil => intro idx; simp [renderLoop, tabExtra]
  | cons ch rest ih =>
    intro idx
    by_cases h : ch = 9
    · have hm := mod_tabstop_lt idx
      simp only [renderLoop, tabExtra, if_pos h, List.length_append,
        List.length_replicate, List.length_cons, ih]
      simp only [KILO_TAB_STOP] at *
      omega
    · simp [renderLoop, tabExtra, if_neg h, ih]
      omega

/-- Claim C7: the rendered form is a pure function of the raw bytes, its
length is the raw length plus, per tab, `tab_stop - 1 - (running_col mod
tab_stop)` at the render column where the tab begins, and re-deriving it
twice from the same raw bytes yields the same output. -/
theorem editorUpdateRow_render_length (r : Erow) :
    (editorUpdateRow r).render.length = r.chars.length + tabExtra r.chars 0 ∧
    editorUpdateRow (editorUpdateRow r) = editorUpdateRow r :=
  ⟨renderLoop_length r.chars 0, rfl⟩

/-- The running render column never decreases along editorRowCxToRx. -/
theorem cxToRxLoop_le (chars : List Nat) :
    ∀ j rx, rx ≤ cxToRxLoop chars j rx := by
  induction chars with
  | nil => intro j rx; cases j <;> simp [cxToRxLoop]
  | cons ch rest ih =>
    intro j rx
    cases j with
    | zero => simp [cxToRxLoop]
    | succ j =>
      by_cases h : ch = 9
      · calc rx ≤ rx + (KILO_TAB_STOP - 1 - rx % KILO_TAB_STOP) + 1 := by omega
          _ ≤ _ := by rw [cxToRxLoop, if_pos h]; exact ih j _
      · calc rx ≤ rx + 1 := by omega
          _ ≤ _ := by rw [cxToRxLoop, if_neg h]; exact ih j _

/-- Walking more bytes never decreases the projected render column. -/
theorem cxToRxLoop_mono (chars : List Nat) :
    ∀ j1 j2 rx, j1 ≤ j2 → cxToRxLoop chars j1 rx ≤ cxToRxLoop chars j2 rx := by
  induction chars with
  | nil => intro j1 j2 rx _; cases j1 <;> cases j2 <;> simp [cxToRxLoop]
  | cons ch rest ih =>
    intro j1 j2 rx hle
    cases j1 with
    | zero => exact cxToRxLoop_le _ _ _
    | succ j1 =>
      cases j2 with
      | zero => omega
      | succ j2 =>
        by_cases h : ch = 9 <;>
          simp only [cxToRxLoop, if_pos, if_neg, h, if_true, if_false] <;>
          exact ih j1 j2 _ (by omega)

/-- Claim C8: `editorRowCxToRx` is monotonically non-decreasing in `cx` on
`[0, row.size]` and maps `cx = 0` to render column 0. -/
theorem editorRowCxToRx_monotone (r : Erow) :
    (∀ cx1 cx2, cx1 ≤ cx2 → cx2 ≤ r.chars.length →
      editorRowCxToRx r cx1 ≤ editorRowCxToRx r cx2) ∧
    editorRowCxToRx r 0 = 0 :=
  ⟨fun cx1 cx2 h _ => cxToRxLoop_mono r.chars cx1 cx2 0 h, by
    unfold editorRowCxToRx; cases r.chars <;> rfl⟩

theorem editorRowCxToRx_monotone_witness :
    1 ≤ 2 ∧ 2 ≤ tabRow.chars.length ∧
    editorRowCxToRx tabRow 1 ≤ editorRowCxToRx tabRow 2 :=
  ⟨by decide, by decide, (editorRowCxToRx_monotone tabRow).1 1 2 (by decide) (by decide)⟩

/-- Claim C3: each recognized escape form decodes to exactly one named key
event, consuming exactly the bytes of that form (the remaining input is
exactly the tail), and an escape byte followed by a timed-out read yields
exactly one bare escape event. -/
theorem editorReadKey_recognized_forms (rest : List ReadEvent) :
    editorReadKey (.byte 27 :: .byte 91 :: .byte 51 :: .byte 126 :: rest) = some (DEL_KEY, rest) ∧
    editorReadKey (.byte 27 :: .byte 91 :: .byte 49 :: .byte 126 :: rest) = some (HOME_KEY, rest) ∧
    editorReadKey (.byte 27 :: .byte 91 :: .byte 55 :: .byte 126 :: rest) = some (HOME_KEY, rest) ∧
    editorReadKey (.byte 27 :: .byte 91 :: .byte 52 :: .byte 126 :: rest) = some (END_KEY, rest) ∧
    editorReadKey (.byte 27 :: .byte 91 :: .byte 56 :: .byte 126 :: rest) = some (END_KEY, rest) ∧
    editorReadKey (.byte 27 :: .byte 91 :: .byte 53 :: .byte 126 :: rest) = some (PAGE_UP, rest) ∧
    editorReadKey (.byte 27 :: .byte 91 :: .byte 54 :: .byte 126 :: rest) = some (PAGE_DOWN, rest) ∧
    editorReadKey (.byte 27 :: .byte 91 :: .byte 65 :: rest) = some (ARROW_UP, rest) ∧
    editorReadKey (.byte 27 :: .byte 91 :: .byte 66 :: rest) = some (ARROW_DOWN, rest) ∧
    editorReadKey (.byte 27 :: .byte 91 :: .byte 67 :: rest) = some (ARROW_RIGHT, rest) ∧
    editorReadKey (.byte 27 :: .byte 91 :: .byte 68 :: rest) = some (ARROW_LEFT, rest) ∧
    editorReadKey (.byte 27 :: .byte 91 :: .byte 72 :: rest) = some (HOME_KEY, rest) ∧
    editorReadKey (.byte 27 :: .byte 91 :: .byte 70 :: rest) = some (END_KEY, rest) ∧
    editorReadKey (.byte 27 :: .byte 79 :: .byte 72 :: rest) = some (HOME_KEY, rest) ∧
    editorReadKey (.byte 27 :: .byte 79 :: .byte 70 :: rest) = some (END_KEY, rest) ∧
    editorReadKey (.byte 27 :: .timeout :: rest) = some (27, rest) :=
  ⟨rfl, rfl, rfl, rfl, rfl, rfl, rfl, rfl, rfl, rfl, rfl, rfl, rfl, rfl, rfl, rfl⟩

/-- Claim C9: on the freshly loaded three-line document "abc", tab-x, "",
the key sequence END, ARROW_DOWN, END leaves the cursor at raw column 2 on
row 1, whatever the window size. -/
theorem processKeypress_end_down_end (windowRows windowCols : Nat) :
    ((((editorProcessKeypress
          (editorOpen (initEditor windowRows windowCols) [[97, 98, 99], [9, 120], []])
          END_KEY).bind
        fun e1 => editorProcessKeypress e1 ARROW_DOWN).bind
        fun e2 => editorProcessKeypress e2 END_KEY).map
      fun e3 => (e3.cx, e3.cy)) = some (2, 1) := rfl

/-- Indexing below the insertion point is unchanged by the splice. -/
theorem getD_splice_lt (l : List Nat) :
    ∀ k j c, j < k → k ≤ l.length →
      (l.take k ++ c :: l.drop k).getD j 0 = l.getD j 0 := by
  induction l with
  | nil => intro k j c hj hk; simp at hk; omega
  | cons a t ih =>
    intro k j c hj hk
    cases k with
    | zero => omega
    | succ k =>
      cases j with
      | zero => simp [List.take, List.getD_cons_zero]
      | succ j =>
        simp only [List.take, List.cons_append, List.getD_cons_succ, List.drop]
        exact ih k j c (by omega) (by simpa using hk)

/-- The spliced byte sits at the insertion point. -/
theorem getD_splice_self (l : List Nat) :
    ∀ k c, k ≤ l.length → (l.take k ++ c :: l.drop k).getD k 0 = c := by
  induction l with
  | nil => intro k c hk; simp at hk; subst hk; simp [List.getD_cons_zero]
  | cons a t ih =>
    intro k c hk
    cases k with
    | zero => simp [List.getD_cons_zero]
    | succ k =>
      simp only [List.take, List.cons_append, List.getD_cons_succ, List.drop]
      exact ih k c (by simpa using hk)

/-- Bytes at or after the insertion point are shifted right by one. -/
theorem getD_splice_ge (l : List Nat) :
    ∀ k j c, k ≤ j → j < l.length →
      (l.take k ++ c :: l.drop k).getD (j + 1) 0 = l.getD j 0 := by
  induction l with
  | nil => intro k j c hk hj; simp at hj
  | cons a t ih =>
    intro k j c hk hj
    cases k with
    | zero => simp [List.getD_cons_succ]
    | succ k =>
      cases j with
      | zero => omega
      | succ j =>
        simp only [List.take, List.cons_append, List.getD_cons_succ, List.drop]
        exact ih k j c (by omega) (by simpa using hj)

/-- Claim C5: inserting a byte at a position `0 ≤ at ≤ n` grows the row to
`n + 1` bytes, keeps all bytes before `at`, stores the byte at `at`, shifts
the bytes at or after `at` right by one; any out-of-bounds position behaves
exactly like inserting at `n` (a clamp, not an error); and the stored
render is recomputed from the updated raw bytes. -/
theorem editorRowInsertChar_spec (r : Erow) (atIdx : Int) (c : Nat) :
    ((0 ≤ atIdx → atIdx ≤ (r.chars.length : Int) →
      (editorRowInsertChar r atIdx c).chars.length = r.chars.length + 1 ∧
      (∀ j : Nat, (j : Int) < atIdx →
        (editorRowInsertChar r atIdx c).chars.getD j 0 = r.chars.getD j 0) ∧
      (editorRowInsertChar r atIdx c).chars.getD atIdx.toNat 0 = c ∧
      (∀ j : Nat, atIdx ≤ (j : Int) → j < r.chars.length →
        (editorRowInsertChar r atIdx c).chars.getD (j + 1) 0 = r.chars.getD j 0))) ∧
    ((atIdx < 0 ∨ (r.chars.length : Int) < atIdx) →
      editorRowInsertChar r atIdx c = editorRowInsertChar r (r.chars.length : Int) c) ∧
    (editorRowInsertChar r atIdx c).render =
      renderLoop (editorRowInsertChar r atIdx c).chars 0 := by
  refine ⟨?_, ?_, ?_⟩
  · intro h0 hn
    have hcl : ¬ (atIdx < 0 ∨ (r.chars.length : Int) < atIdx) := by omega
    have hk : atIdx.toNat ≤ r.chars.length := by omega
    simp only [editorRowInsertChar, editorUpdateRow, if_neg hcl]
    refine ⟨?_, ?_, ?_, ?_⟩
    · simp [List.length_append, List.length_take, List.length_drop]
      omega
    · intro j hj
      exact getD_splice_lt r.chars atIdx.toNat j c (by omega) hk
    · exact getD_splice_self r.chars atIdx.toNat c hk
    · intro j hj hjl
      exact getD_splice_ge r.chars atIdx.toNat j c (by omega) hjl
  · intro h
    have hcl2 : ¬ ((r.chars.length : Int) < 0 ∨ (r.chars.length : Int) < (r.chars.length : Int)) := by
      omega
    simp only [editorRowInsertChar, if_pos h, if_neg hcl2]
  · rfl

theorem editorRowInsertChar_spec_witness :
    (0 : Int) ≤ 1 ∧ (1 : Int) ≤ (abcRow.chars.length : Int) ∧
    (editorRowInsertChar abcRow 1 122).chars.length = abcRow.chars.length + 1 ∧
    ((abcRow.chars.length : Int) < 8 ∧
      editorRowInsertChar abcRow 8 122 =
        editorRowInsertChar abcRow (abcRow.chars.length : Int) 122) :=
  ⟨by decide, by decide,
   ((editorRowInsertChar_spec abcRow 1 122).1 (by decide) (by decide)).1,
   by decide, (editorRowInsertChar_spec abcRow 8 122).2.1 (by decide)⟩

/-- editorMoveCursor leaves the row buffer untouched. -/
theorem editorMoveCursor_row (e : EditorConfig) (key : Nat) :
    (editorMoveCursor e key).row = e.row := rfl

/-- The closing snap of editorMoveCursor leaves the cursor column within
the length of the row it lands on. -/
theorem editorMoveCursor_cx_le (e : EditorConfig) (key : Nat) :
    (editorMoveCursor e key).cx ≤ rowLen e.row (editorMoveCursor e key).cy := by
  have hsnap : ∀ p : Nat × Nat,
      (if p.1 > rowLen e.row p.2 then rowLen e.row p.2 else p.1) ≤ rowLen e.row p.2 := by
    intro p; split <;> omega
  exact hsnap _

/-- The moved row index stays at most the row count. -/
theorem editorMoveCursor_cy_le (e : EditorConfig) (key : Nat)
    (h : e.cy ≤ e.row.length) :
    (editorMoveCursor e key).cy ≤ e.row.length := by
  dsimp only [editorMoveCursor]
  split_ifs <;> try omega
  rcases hg : e.row.get? e.cy with _ | r
  · simp only [hg]; omega
  · have hlt : e.cy < e.row.length := by
      rcases List.get?_eq_some.1 hg with ⟨hl, _⟩
      exact hl
    simp only [hg]
    split_ifs <;> dsimp only <;> omega

/-- The rowlen computation agrees with the length of the indexed row (an absent row reads
as the empty row). -/
theorem rowLen_eq_rowAt (rows : List Erow) (i : Nat) :
    rowLen rows i = (rowAt rows i).chars.length := by
  unfold rowLen rowAt
  cases rows.get? i <;> simp

/-- A state with the cursor at the end of the first of two rows. -/
def sampleStateEnd : EditorConfig :=
  { cx := 3, cy := 0, rx := 0, rowoff := 0, coloff := 0,
    screenrows := 5, screencols := 8, row := [abcRow, tabRow] }

/-- Claim C6: LEFT at column 0 of row `k > 0` wraps to the end of row
`k - 1`; RIGHT at the end of a non-last row wraps to column 0 of the next
row; UP and DOWN move only between existing row indexes with no wraparound
at the buffer edges; and after any motion the column is clamped to the
length of the row the cursor lands on (0 past the last row). -/
theorem editorMoveCursor_spec (e : EditorConfig) :
    ((e.cx = 0 → 0 < e.cy → e.cy ≤ e.row.length →
      (editorMoveCursor e ARROW_LEFT).cx = (rowAt e.row (e.cy - 1)).chars.length ∧
      (editorMoveCursor e ARROW_LEFT).cy = e.cy - 1)) ∧
    ((e.cy + 1 < e.row.length → e.cx = (rowAt e.row e.cy).chars.length →
      (editorMoveCursor e ARROW_RIGHT).cx = 0 ∧
      (editorMoveCursor e ARROW_RIGHT).cy = e.cy + 1)) ∧
    ((editorMoveCursor e ARROW_UP).cy = e.cy - 1) ∧
    ((editorMoveCursor e ARROW_DOWN).cy =
      if e.cy < e.row.length then e.cy + 1 else e.cy) ∧
    (∀ key, (editorMoveCursor e key).cx ≤
      rowLen e.row (editorMoveCursor e key).cy) := by
  refine ⟨?_, ?_, ?_, ?_, fun key => editorMoveCursor_cx_le e key⟩
  · intro hcx hcy hle
    have hrl : rowLen e.row (e.cy - 1) = (rowAt e.row (e.cy - 1)).chars.length :=
      rowLen_eq_rowAt _ _
    simp [editorMoveCursor, hcx, hcy, hrl]
  · intro hlt hcx
    rcases hg : e.row.get? e.cy with _ | r
    · exact absurd (List.get?_eq_none.1 hg) (by omega)
    · have hr : rowAt e.row e.cy = r := by unfold rowAt; rw [hg]; rfl
      rw [hr] at hcx
      have hg2 : e.row[e.cy]? = some r := by rw [← List.get?_eq_getElem?]; exact hg
      have h0 : ¬ (0 > rowLen e.row (e.cy + 1)) := by omega
      simp [editorMoveCursor, ARROW_RIGHT, ARROW_LEFT, hg2, hcx, h0]
  · simp only [editorMoveCursor, ARROW_UP, ARROW_LEFT, ARROW_RIGHT]
    norm_num
    omega
  · simp only [editorMoveCursor, ARROW_DOWN, ARROW_LEFT, ARROW_RIGHT, ARROW_UP]
    norm_num

theorem editorMoveCursor_spec_witness :
    sampleStateEnd.cy + 1 < sampleStateEnd.row.length ∧
    sampleStateEnd.cx = (rowAt sampleStateEnd.row sampleStateEnd.cy).chars.length ∧
    ((editorMoveCursor sampleStateEnd ARROW_RIGHT).cx = 0 ∧
     (editorMoveCursor sampleStateEnd ARROW_RIGHT).cy = sampleStateEnd.cy + 1) :=
  ⟨by decide, by decide,
   (editorMoveCursor_spec sampleStateEnd).2.1 (by decide) (by decide)⟩

/-- Claim C4: a first byte other than the escape byte is returned unchanged
as a printable/control event with nothing else consumed, and any input
starting with the escape byte whose continuation is not a recognized form
(because a read timed out or because the bytes match no form) decodes to
exactly one bare escape event, never a partial sequence. -/
theorem editorReadKey_unrecognized_escape (b : Nat) (rest : List ReadEvent) :
    (b ≠ 27 → editorReadKey (ReadEvent.byte b :: rest) = some (b, rest)) ∧
    (specRecognizedEsc rest = none →
      ∃ r, editorReadKey (ReadEvent.byte 27 :: rest) = some (27, r)) := by
  constructor
  · intro hb
    simp [editorReadKey, readFirstByte, hb]
  · intro hn
    match rest with
    | [] => exact ⟨[], rfl⟩
    | ReadEvent.timeout :: r1 => exact ⟨r1, rfl⟩
    | [ReadEvent.byte s0] =>
      exact ⟨[], by simp [editorReadKey, readFirstByte, readOnce]⟩
    | ReadEvent.byte s0 :: ReadEvent.timeout :: r2 =>
      exact ⟨r2, by simp [editorReadKey, readFirstByte, readOnce]⟩
    | ReadEvent.byte s0 :: ReadEvent.byte s1 :: more =>
      simp only [specRecognizedEsc] at hn
      by_cases h0 : s0 = 91
      · subst h0
        rw [if_pos rfl] at hn
        by_cases hd : 48 ≤ s1 ∧ s1 ≤ 57
        · rw [if_pos hd] at hn
          match more with
          | [] =>
            exact ⟨[], by simp [editorReadKey, readFirstByte, readOnce, hd]⟩
          | ReadEvent.timeout :: r3 =>
            exact ⟨r3, by simp [editorReadKey, readFirstByte, readOnce, hd]⟩
          | ReadEvent.byte s2 :: r3 =>
            dsimp only at hn
            by_cases h2 : s2 = 126
            · subst h2
              rw [if_pos rfl, Option.map_eq_none'] at hn
              exact ⟨r3, by simp [editorReadKey, readFirstByte, readOnce, hd, hn]⟩
            · exact ⟨r3, by simp [editorReadKey, readFirstByte, readOnce, hd, h2]⟩
        · rw [if_neg hd, Option.map_eq_none'] at hn
          exact ⟨more, by simp [editorReadKey, readFirstByte, readOnce, hd, hn]⟩
      · by_cases h1 : s0 = 79
        · subst h1
          rw [if_neg (by decide), if_pos rfl, Option.map_eq_none'] at hn
          exact ⟨more, by simp [editorReadKey, readFirstByte, readOnce, hn]⟩
        · exact ⟨more, by simp [editorReadKey, readFirstByte, readOnce, h0, h1]⟩

theorem editorReadKey_unrecognized_escape_witness :
    (65 ≠ 27 ∧ editorReadKey [ReadEvent.byte 65, ReadEvent.byte 91] =
      some (65, [ReadEvent.byte 91])) ∧
    (specRecognizedEsc [ReadEvent.byte 91] = none ∧
      ∃ r, editorReadKey [ReadEvent.byte 27, ReadEvent.byte 91] = some (27, r)) :=
  ⟨⟨by decide, (editorReadKey_unrecognized_escape 65 [ReadEvent.byte 91]).1 (by decide)⟩,
   ⟨by decide, (editorReadKey_unrecognized_escape 65 [ReadEvent.byte 91]).2 (by decide)⟩⟩

/-- One editorMoveCursor call re-establishes the cursor invariant from the
row bound alone: the closing snap fixes the column. -/
theorem editorMoveCursor_inv (e : EditorConfig) (key : Nat)
    (h : e.cy ≤ e.row.length) : cursorInv (editorMoveCursor e key) := by
  unfold cursorInv
  rw [editorMoveCursor_row]
  refine ⟨editorMoveCursor_cy_le e key h, ?_⟩
  by_cases hlt : (editorMoveCursor e key).cy < e.row.length
  · rw [if_pos hlt]
    exact editorMoveCursor_cx_le e key
  · rw [if_neg hlt]
    have h0 : rowLen e.row (editorMoveCursor e key).cy = 0 := by
      unfold rowLen
      rw [List.get?_eq_none.2 (by omega)]
    have := editorMoveCursor_cx_le e key
    omega

/-- The cursor-motion loop leaves the row buffer untouched. -/
theorem moveCursorTimes_row (key : Nat) :
    ∀ (n : Nat) (e : EditorConfig), (moveCursorTimes e key n).row = e.row := by
  intro n
  induction n with
  | zero => intro e; rfl
  | succ n ih =>
    intro e
    show (moveCursorTimes (editorMoveCursor e key) key n).row = e.row
    rw [ih, editorMoveCursor_row]

/-- Running the cursor-motion loop at least once re-establishes the cursor
invariant from the row bound alone. -/
theorem moveCursorTimes_inv (key : Nat) :
    ∀ (n : Nat) (e : EditorConfig), 1 ≤ n → e.cy ≤ e.row.length →
      cursorInv (moveCursorTimes e key n) := by
  intro n
  induction n with
  | zero => intro e h; omega
  | succ n ih =>
    intro e _ hcy
    cases n with
    | zero => exact editorMoveCursor_inv e key hcy
    | succ m =>
      show cursorInv (moveCursorTimes (editorMoveCursor e key) key (m + 1))
      have hinv := editorMoveCursor_inv e key hcy
      exact ih (editorMoveCursor e key) (by omega) hinv.1

/-- Row-level insertion always grows the row by exactly one byte. -/
theorem editorRowInsertChar_length (r : Erow) (i : Int) (c : Nat) :
    (editorRowInsertChar r i c).chars.length = r.chars.length + 1 := by
  unfold editorRowInsertChar editorUpdateRow
  dsimp only
  split_ifs with h
  · simp [List.length_take, List.length_drop]
  · simp [List.length_take, List.length_drop]
    omega

/-- editorInsertChar preserves the cursor invariant. -/
theorem editorInsertChar_inv (e : EditorConfig) (c : Nat) (h : cursorInv e) :
    cursorInv (editorInsertChar e c) := by
  obtain ⟨h1, h2⟩ := h
  by_cases hcy : e.cy = e.row.length
  · have hx0 : e.cx = 0 := by
      rw [if_neg (by omega)] at h2
      exact h2
    have hget : (e.row ++ [editorUpdateRow { chars := [], render := [] }]).get? e.cy
        = some (editorUpdateRow { chars := [], render := [] }) := by
      rw [hcy]
      exact List.get?_concat_length _ _
    have hlen : (e.row ++ [editorUpdateRow { chars := [], render := [] }]).length
        = e.row.length + 1 := by simp
    have hrowAt : rowAt (e.row ++ [editorUpdateRow { chars := [], render := [] }]) e.cy
        = editorUpdateRow { chars := [], render := [] } := by
      unfold rowAt
      rw [hget]
      rfl
    unfold editorInsertChar editorAppendRow cursorInv
    rw [if_pos hcy]
    dsimp only
    constructor
    · rw [List.length_set, hlen]
      omega
    · rw [if_pos (by rw [List.length_set, hlen]; omega)]
      unfold rowLen
      rw [List.get?_set_eq_of_lt _ (by rw [hlen]; omega)]
      dsimp only
      rw [hrowAt, editorRowInsertChar_length]
      simp [editorUpdateRow]
      omega
  · have hlt : e.cy < e.row.length := by omega
    have hcx : e.cx ≤ (rowAt e.row e.cy).chars.length := by
      rw [if_pos hlt] at h2
      rw [← rowLen_eq_rowAt]
      exact h2
    unfold editorInsertChar cursorInv
    rw [if_neg hcy]
    dsimp only
    constructor
    · rw [List.length_set]
      omega
    · rw [if_pos (by rw [List.length_set]; omega)]
      unfold rowLen
      rw [List.get?_set_eq_of_lt _ (by omega)]
      dsimp only
      rw [editorRowInsertChar_length]
      omega

/-- Claim C2 (amended): every keypress dispatch preserves the cursor
invariant, given additionally that `row_offset ≤ cy` and `screen_rows ≥ 1`
hold on entry; both are established by editorScroll, which the main loop
runs before every dispatch. -/
theorem editorProcessKeypress_preserves_cursorInv (e : EditorConfig) (c : Nat)
    (hinv : cursorInv e) (hro : e.rowoff ≤ e.cy) (hsr : 1 ≤ e.screenrows) :
    ∀ e2, editorProcessKeypress e c = some e2 → cursorInv e2 := by
  intro e2 h2
  obtain ⟨h1, hcc⟩ := hinv
  simp only [editorProcessKeypress] at h2
  split_ifs at h2 with hq hh he hlt hp hcu hcl har
  · injection h2 with h2
    subst h2
    refine ⟨h1, ?_⟩
    dsimp only
    split_ifs <;> omega
  · injection h2 with h2
    subst h2
    refine ⟨h1, ?_⟩
    dsimp only
    rw [if_pos hlt]
    exact le_of_eq (rowLen_eq_rowAt _ _).symm
  · injection h2 with h2
    subst h2
    exact ⟨h1, hcc⟩
  · injection h2 with h2
    subst h2
    exact moveCursorTimes_inv ARROW_UP _ _ hsr (show e.rowoff ≤ e.row.length by omega)
  · injection h2 with h2
    subst h2
    exact moveCursorTimes_inv ARROW_DOWN _ _ hsr
      (show e.row.length ≤ e.row.length by omega)
  · injection h2 with h2
    subst h2
    exact moveCursorTimes_inv ARROW_DOWN _ _ hsr
      (show e.rowoff + e.screenrows - 1 ≤ e.row.length by omega)
  · injection h2 with h2
    subst h2
    exact editorMoveCursor_inv e c h1
  · injection h2 with h2
    subst h2
    exact editorInsertChar_inv e c ⟨h1, hcc⟩

/-- Claim C2 (counterexample to the unconditional statement): a state
satisfying the documented cursor invariant but with `row_offset > cy`, as
the raw invariant alone permits, is taken by a PAGE_UP dispatch to a state
whose cursor row exceeds the row count. -/
theorem processKeypress_cursorInv_cex :
    cursorInv pageUpCexState ∧
    editorProcessKeypress pageUpCexState PAGE_UP = some pageUpCexResult ∧
    ¬ cursorInv pageUpCexResult := by decide

theorem editorProcessKeypress_preserves_cursorInv_witness :
    cursorInv sampleState ∧ sampleState.rowoff ≤ sampleState.cy ∧
    1 ≤ sampleState.screenrows ∧ cursorInv sampleStateRight :=
  ⟨by decide, by decide, by decide,
   editorProcessKeypress_preserves_cursorInv sampleState ARROW_RIGHT
     (by decide) (by decide) (by decide) sampleStateRight (by decide)⟩

/-- In-bounds row insertion splices the byte at the requested position. -/
theorem editorRowInsertChar_chars (r : Erow) (i : Int) (c : Nat)
    (h0 : 0 ≤ i) (hle : i ≤ (r.chars.length : Int)) :
    (editorRowInsertChar r i c).chars =
      r.chars.take i.toNat ++ c :: r.chars.drop i.toNat := by
  unfold editorRowInsertChar editorUpdateRow
  dsimp only
  rw [if_neg (by omega)]

/-- Claim C10: any plain byte other than Ctrl-Q — control bytes, carriage
return, backspace and the 0x1B escape byte included — reaches the default
branch of the dispatcher and is inserted verbatim at the cursor position,
advancing the cursor column by one; when the cursor sits one row past the
last existing row an empty row is appended first and receives the byte. -/
theorem editorProcessKeypress_default_insert (e : EditorConfig) (c : Nat)
    (hb : c ≤ 255) (hq : c ≠ 17) (hinv : cursorInv e) :
    editorProcessKeypress e c = some (editorInsertChar e c) ∧
    (editorInsertChar e c).cx = e.cx + 1 ∧
    (editorInsertChar e c).cy = e.cy ∧
    (e.cy < e.row.length →
      (editorInsertChar e c).row.length = e.row.length ∧
      (rowAt (editorInsertChar e c).row e.cy).chars =
        (rowAt e.row e.cy).chars.take e.cx ++ c :: (rowAt e.row e.cy).chars.drop e.cx ∧
      (∀ i, i ≠ e.cy → rowAt (editorInsertChar e c).row i = rowAt e.row i)) ∧
    (e.cy = e.row.length →
      (editorInsertChar e c).row.length = e.row.length + 1 ∧
      (rowAt (editorInsertChar e c).row e.cy).chars = [c]) := by
  have hck : CTRL_KEY 113 = 17 := by decide
  obtain ⟨h1, hcc⟩ := hinv
  refine ⟨?_, ?_, ?_, ?_, ?_⟩
  · rw [editorProcessKeypress, if_neg (by omega), if_neg (by rw [HOME_KEY]; omega),
      if_neg (by rw [END_KEY]; omega),
      if_neg (by rw [PAGE_UP, PAGE_DOWN]; omega),
      if_neg (by rw [ARROW_UP, ARROW_DOWN, ARROW_LEFT, ARROW_RIGHT]; omega)]
  · by_cases hcy : e.cy = e.row.length <;>
      simp [editorInsertChar, editorAppendRow, hcy]
  · by_cases hcy : e.cy = e.row.length <;>
      simp [editorInsertChar, editorAppendRow, hcy]
  · intro hlt
    have hcy : ¬ e.cy = e.row.length := by omega
    have hcx : e.cx ≤ (rowAt e.row e.cy).chars.length := by
      rw [if_pos hlt] at hcc
      rw [← rowLen_eq_rowAt]
      exact hcc
    refine ⟨?_, ?_, ?_⟩
    · simp [editorInsertChar, hcy, List.length_set]
    · simp only [editorInsertChar, if_neg hcy]
      unfold rowAt
      rw [List.get?_set_eq_of_lt _ (by omega)]
      simp only [Option.getD_some]
      rw [editorRowInsertChar_chars _ _ _ (by omega) (by exact_mod_cast hcx)]
      simp
    · intro i hi
      simp only [editorInsertChar, if_neg hcy]
      unfold rowAt
      rw [List.get?_set_ne _ _ (fun h => hi h.symm)]
  · intro hcy
    have hx0 : e.cx = 0 := by
      rw [if_neg (by omega)] at hcc
      exact hcc
    have hget : (e.row ++ [editorUpdateRow { chars := [], render := [] }]).get? e.cy
        = some (editorUpdateRow { chars := [], render := [] }) := by
      rw [hcy]
      exact List.get?_concat_length _ _
    have hlen : (e.row ++ [editorUpdateRow { chars := [], render := [] }]).length
        = e.row.length + 1 := by simp
    refine ⟨?_, ?_⟩
    · simp [editorInsertChar, hcy, editorAppendRow, List.length_set]
    · simp only [editorInsertChar, if_pos hcy, editorAppendRow]
      unfold rowAt
      rw [List.get?_set_eq_of_lt _ (by rw [hlen]; omega)]
      simp only [Option.getD_some]
      have hrowAt2 : ((e.row ++ [editorUpdateRow { chars := [], render := [] }]).get?
          e.cy).getD (⟨[], []⟩ : Erow) = editorUpdateRow { chars := [], render := [] } := by
        rw [hget]
        rfl
      rw [hrowAt2, hx0]
      rfl

theorem editorProcessKeypress_default_insert_witness :
    (120 ≤ 255 ∧ 120 ≠ 17 ∧ cursorInv sampleState) ∧
    editorProcessKeypress sampleState 120 = some (editorInsertChar sampleState 120) ∧
    (editorInsertChar sampleState 120).cx = sampleState.cx + 1 :=
  ⟨⟨by decide, by decide, by decide⟩,
   (editorProcessKeypress_default_insert sampleState 120 (by decide) (by decide) (by decide)).1,
   (editorProcessKeypress_default_insert sampleState 120 (by decide) (by decide) (by decide)).2.1⟩
